import Mathlib

/-!
Shallow embedding of `src/data_extractor.py` (class `MinimalParisWiFiExtractor`,
Paris Wi-Fi usage extractor) and proofs about the claims of its specification.

Python dynamic values are modelled by the inductive `PyVal` (numbers as exact
rationals: the extractor only moves them around, never computes with them).
Python `None` is `PyVal.none`; a fallible Python function that can raise an
uncaught exception is modelled with an `Option` result, `Option.none` standing
for the uncaught exception.  Network and database effects are parameters:
the transport layer is an oracle giving the outcome of each HTTP attempt, and
the database is an oracle telling which insert chunks fail.
-/

namespace ParisWifi

/-- A Python value as the extractor sees it: `None`, booleans, numbers
(modelled as exact rationals), strings, lists (also standing for tuples) and
string-keyed dictionaries (association lists, first binding wins). -/
inductive PyVal where
  | none : PyVal
  | bool : Bool → PyVal
  | num : Rat → PyVal
  | str : String → PyVal
  | list : List PyVal → PyVal
  | dict : List (String × PyVal) → PyVal

/-- Python `d.get(k)`: the value bound to `k`, or `None` when `k` is absent. -/
def dictGet (d : List (String × PyVal)) (k : String) : PyVal :=
  match d.find? (fun p => p.1 == k) with
  | some p => p.2
  | Option.none => PyVal.none

/-- Python `k in d` for a dictionary. -/
def hasKey (d : List (String × PyVal)) (k : String) : Bool :=
  d.any (fun p => p.1 == k)

/-- Python truthiness: `None`, `False`, `0`, `""`, `[]` and `{}` are falsy. -/
def truthy : PyVal → Bool
  | PyVal.none => false
  | PyVal.bool b => b
  | PyVal.num q => decide (q ≠ 0)
  | PyVal.str s => decide (s ≠ "")
  | PyVal.list l => !l.isEmpty
  | PyVal.dict d => !d.isEmpty

/-- Python `a or b`: `a` when `a` is truthy, else `b`. -/
def pyOr (a b : PyVal) : PyVal :=
  if truthy a then a else b

/-- Whether a value is Python `None`. -/
def isNone : PyVal → Bool
  | PyVal.none => true
  | _ => false

/-- The canonical record shape produced by `prepare_record_for_db`
(source lines 153-164); every field is a Python value, `PyVal.none` when the
source field could not be resolved. -/
structure CanonicalRecord where
  code_site : PyVal
  datetime : PyVal
  duration : PyVal
  nom_site : PyVal
  cp : PyVal
  device_portal_format : PyVal
  bytesin : PyVal
  bytesout : PyVal
  latitude : PyVal
  longitude : PyVal

/-- The all-null canonical record. -/
def nullRecord : CanonicalRecord :=
  ⟨PyVal.none, PyVal.none, PyVal.none, PyVal.none, PyVal.none,
   PyVal.none, PyVal.none, PyVal.none, PyVal.none, PyVal.none⟩

/-- `_get_fields_from_item` (source lines 119-135): envelope unwrapping.
A non-dictionary item becomes `{}`; a dictionary with a dict-valued
`"record"` entry yields that entry's `"fields"` value when the key is
present, else the `"record"` dictionary; otherwise a present `"fields"`
key yields its value; otherwise the item itself is the fields mapping. -/
def get_fields_from_item (item : PyVal) : PyVal :=
  match item with
  | PyVal.dict d =>
      match dictGet d "record" with
      | PyVal.dict rec =>
          if hasKey rec "fields" then dictGet rec "fields" else PyVal.dict rec
      | _ =>
          if hasKey d "fields" then dictGet d "fields" else item
  | _ => PyVal.dict []

/-- `prepare_record_for_db` (source lines 137-164).  Total on dictionaries;
on any non-dictionary argument the Python code raises an uncaught
`AttributeError` at `fields.get`, modelled as `Option.none`. -/
def prepare_record_for_db (fields : PyVal) : Option CanonicalRecord :=
  match fields with
  | PyVal.dict f =>
      let g : String → PyVal := fun k => dictGet f k
      let gp := pyOr (g "geo_point_2d") (g "geo_point")
      let latlon : PyVal × PyVal :=
        match gp with
        | PyVal.list l =>
            if 2 ≤ l.length then (l.getD 0 PyVal.none, l.getD 1 PyVal.none)
            else (pyOr (g "latitude") (g "lat"), pyOr (g "longitude") (g "lon"))
        | PyVal.dict gd =>
            (pyOr (dictGet gd "lat") (dictGet gd "latitude"),
             pyOr (dictGet gd "lon") (dictGet gd "longitude"))
        | _ => (pyOr (g "latitude") (g "lat"), pyOr (g "longitude") (g "lon"))
      some
        ⟨pyOr (pyOr (g "code_site") (g "codeSite")) (g "code"),
         g "datetime",
         g "duration",
         pyOr (pyOr (g "nom_site") (g "nomSite")) (g "nom"),
         g "cp",
         g "device_portal_format",
         g "bytesin",
         g "bytesout",
         latlon.1,
         latlon.2⟩
  | _ => Option.none

/-- Normalization as the loader applies it per raw item (source line 176):
envelope unwrapping followed by field preparation. -/
def normalize (item : PyVal) : Option CanonicalRecord :=
  prepare_record_for_db (get_fields_from_item item)

/-- Follows the spec's words for claim C7: the value of the first alias
whose value is non-null, null when every alias is null.  To be compared
with the resolution the code actually performs. -/
def specFirstNonNull (vals : List PyVal) : PyVal :=
  match vals.find? (fun v => !(isNone v)) with
  | some v => v
  | Option.none => PyVal.none

/-- First truthy value of the list; when none is truthy, the last value
(`PyVal.none` for the empty list).  This is what a chain of Python `or`
over the listed values computes. -/
def firstTruthyElseLast : List PyVal → PyVal
  | [] => PyVal.none
  | [v] => v
  | v :: rest => if truthy v then v else firstTruthyElseLast rest

/-- `_extract_results_list` (source lines 104-117): the value under the first
present key among `results`, `records`, `data` of a decoded dictionary;
`[]` for a failed fetch (`None`) or any other shape.  The stored value is
returned as is, whatever its type, exactly as the Python code does. -/
def extract_results_list (raw : Option PyVal) : PyVal :=
  match raw with
  | Option.none => PyVal.list []
  | some (PyVal.dict d) =>
      if hasKey d "results" then dictGet d "results"
      else if hasKey d "records" then dictGet d "records"
      else if hasKey d "data" then dictGet d "data"
      else PyVal.list []
  | some _ => PyVal.list []

/-- Python iteration as `list.extend` sees it: lists yield their elements,
strings their one-character substrings, dictionaries their keys; any other
value is not iterable and `extend` raises `TypeError` (`Option.none`). -/
def pyElems : PyVal → Option (List PyVal)
  | PyVal.list l => some l
  | PyVal.str s => some (s.toList.map (fun c => PyVal.str (String.mk [c])))
  | PyVal.dict d => some (d.map (fun p => PyVal.str p.1))
  | _ => Option.none

/-- Python `range(0, stop, step)` driven by fuel; one unit of fuel per
element, `pyRange` supplies enough.  Models source line 204. -/
def pyRangeAux (stop step : Nat) : Nat → Nat → List Nat
  | 0, _ => []
  | fuel + 1, cur =>
      if cur < stop then cur :: pyRangeAux stop step fuel (cur + step)
      else []

/-- `list(range(0, stop, step))` for a positive `step` (a zero `step`
raises in Python and never occurs in the claims' scope). -/
def pyRange (stop step : Nat) : List Nat :=
  pyRangeAux stop step stop 0

/-- The offset cycle of `fetch_strategic_sample` (source lines 203-206):
`list(range(0, 10000, batch_size))`, replaced by `[0]` when empty. -/
def offsetsFor (bmax : Nat) : List Nat :=
  let offsets := pyRange 10000 bmax
  if offsets.isEmpty then [0] else offsets

/-- Outcome of one run of the sample collector: the accumulated raw items
(`Option.none` when the run dies on an uncaught `TypeError` in
`collected.extend`) and how many `fetch_data_batch` calls were issued. -/
structure CollectResult where
  collected : Option (List PyVal)
  fetchCalls : Nat

/-- The batch loop of `fetch_strategic_sample` (source lines 213-229).
`fetchO n` is the decoded payload of the `n`-th `fetch_data_batch` call of
the run (`Option.none` when that fetch exhausted its retries); the probe is
call `0`, so the loop starts at call index `1`.  Arguments: remaining batch
count, offset-cycle index `oi`, fetch-call index, accumulator. -/
def collectLoop (fetchO : Nat → Option PyVal) (target : Nat) (offsets : List Nat) :
    Nat → Nat → Nat → List PyVal → CollectResult
  | 0, _, calls, collected => ⟨some collected, calls⟩
  | rem + 1, oi, calls, collected =>
      let raw := fetchO calls
      let items := extract_results_list raw
      if truthy items then
        match pyElems items with
        | Option.none => ⟨Option.none, calls + 1⟩
        | some el =>
            let collected2 := collected ++ el
            if target ≤ collected2.length then ⟨some collected2, calls + 1⟩
            else
              collectLoop fetchO target offsets rem
                ((oi + 1) % offsets.length) (calls + 1) collected2
      else
        if target ≤ collected.length then ⟨some collected, calls + 1⟩
        else
          collectLoop fetchO target offsets rem
            ((oi + 1) % offsets.length) (calls + 1) collected

/-- `fetch_strategic_sample` (source lines 190-231): probe fetch, offset
cycle, batch loop, final truncation `collected[:target_size]`.  Valid for a
positive `bmax` (`max_batch_size`); a zero `bmax` would divide by zero in
Python. -/
def fetch_strategic_sample (fetchO : Nat → Option PyVal) (bmax target : Nat) :
    CollectResult :=
  match fetchO 0 with
  | Option.none => ⟨some [], 1⟩
  | some _ =>
      let offsets := offsetsFor bmax
      let total_batches_needed := (target + bmax - 1) / bmax
      let r := collectLoop fetchO target offsets total_batches_needed 0 1 []
      ⟨r.collected.map (fun l => l.take target), r.fetchCalls⟩

/-- Outcome of one HTTP attempt inside `fetch_data_batch`: a response with
a status code and decoded body, a connect/read timeout, or another
`requests` exception. -/
inductive AttemptOutcome where
  | status (code : Nat) (body : PyVal)
  | timeout
  | reqError

/-- Why the retry loop slept. -/
inductive SleepCause where
  | rateLimited
  | timeoutWait
  | reqErrorWait
deriving DecidableEq

/-- One backoff sleep of the retry loop: its cause, the value of the
attempt counter when it happened, and its duration in seconds. -/
structure SleepEv where
  cause : SleepCause
  attempt : Nat
  secs : Nat
deriving DecidableEq

/-- Result of `fetch_data_batch`: the decoded payload (`Option.none` after
retries are exhausted or on a terminal request error) and the trace of
backoff sleeps performed. -/
structure FetchResult where
  ret : Option PyVal
  sleeps : List SleepEv

/-- The retry loop of `fetch_data_batch` (source lines 80-102), driven by
fuel: one unit per attempt, `max_retries` in total.  On HTTP 429 it sleeps
`10 * attempt` and retries; `raise_for_status` turns a 4xx/5xx status into
a request error; a timeout sleeps `2 * attempt` and retries; another
request error sleeps `2 * attempt` and retries while attempts remain, else
returns `None`; any remaining status is decoded and returned. -/
def fetchLoop (env : Nat → AttemptOutcome) (max_retries : Nat) :
    Nat → Nat → List SleepEv → FetchResult
  | 0, _, sleeps => ⟨Option.none, sleeps⟩
  | fuel + 1, attempt, sleeps =>
      match env attempt with
      | AttemptOutcome.status code body =>
          if code = 429 then
            fetchLoop env max_retries fuel (attempt + 1)
              (sleeps ++ [⟨SleepCause.rateLimited, attempt, 10 * attempt⟩])
          else if 400 ≤ code ∧ code < 600 then
            if attempt < max_retries then
              fetchLoop env max_retries fuel (attempt + 1)
                (sleeps ++ [⟨SleepCause.reqErrorWait, attempt, 2 * attempt⟩])
            else ⟨Option.none, sleeps⟩
          else ⟨some body, sleeps⟩
      | AttemptOutcome.timeout =>
          fetchLoop env max_retries fuel (attempt + 1)
            (sleeps ++ [⟨SleepCause.timeoutWait, attempt, 2 * attempt⟩])
      | AttemptOutcome.reqError =>
          if attempt < max_retries then
            fetchLoop env max_retries fuel (attempt + 1)
              (sleeps ++ [⟨SleepCause.reqErrorWait, attempt, 2 * attempt⟩])
          else ⟨Option.none, sleeps⟩

/-- `fetch_data_batch` (source lines 74-102): attempts `1 .. max_retries`,
falling out of the loop returns `None`. -/
def fetch_data_batch (env : Nat → AttemptOutcome) (max_retries : Nat) :
    FetchResult :=
  fetchLoop env max_retries max_retries 1 []

/-- Contiguous chunks `prepared[i:i+bs]` for `i in range(0, total, bs)`
(source lines 178-179), driven by fuel (one unit per chunk, at least the
input length suffices for a positive `bs`). -/
def chunksOfAux (bs : Nat) : Nat → List CanonicalRecord → List (List CanonicalRecord)
  | 0, _ => []
  | _, [] => []
  | fuel + 1, a :: l => ((a :: l).take bs) :: chunksOfAux bs fuel ((a :: l).drop bs)

/-- The chunking of `insert_records_batch`: empty for a zero chunk size
(Python's `range` would raise there). -/
def chunksOf (bs : Nat) (l : List CanonicalRecord) : List (List CanonicalRecord) :=
  if bs = 0 then [] else chunksOfAux bs l.length l

/-- The per-chunk commit/rollback loop of `insert_records_batch` (source
lines 178-186): a chunk whose `executemany` fails is rolled back and skipped,
every other chunk is committed, in order. -/
def insertChunks (fails : List CanonicalRecord → Bool) :
    List (List CanonicalRecord) → List (List CanonicalRecord)
  | [] => []
  | c :: cs =>
      if fails c then insertChunks fails cs
      else c :: insertChunks fails cs

/-- Result of `insert_records_batch`: the chunks committed, in order, and
the Python return value (`ret = Option.none` models Python `None`; the
function has no `return expr` statement). -/
structure LoadResult where
  committed : List (List CanonicalRecord)
  ret : Option Nat

/-- `insert_records_batch` (source lines 166-188) from line 177 on: the
caller has already mapped `prepare_record_for_db` over the raw items
(line 176), as `run_full_pipeline` below does.  `fails` is the database
oracle telling which chunk's `executemany` raises. -/
def insert_records_batch (fails : List CanonicalRecord → Bool)
    (prepared : List CanonicalRecord) (batch_size : Nat) : LoadResult :=
  ⟨insertChunks fails (chunksOf batch_size prepared), Option.none⟩

/-- Observable step of a full pipeline run: the destructive
drop-and-recreate of `wifi_sessions`, the `n`-th fetch of the collector, or
the loading phase. -/
inductive PipeEvent where
  | dropCreate
  | fetch (n : Nat)
  | load
deriving DecidableEq

/-- Result of `run_full_pipeline`: its boolean return, the final table
state (`Option.none` means no `wifi_sessions` table), and the ordered
events of the run. -/
structure PipeResult where
  ok : Bool
  db : Option (List CanonicalRecord)
  events : List PipeEvent

/-- `run_full_pipeline` (source lines 243-256), CSV export elided (out of
the claims' scope).  `connect_ok` and `create_ok` are the sink oracles for
`connect_db` and `create_table`; on a failed `create_table` the transaction
is never committed, so the table keeps its prior state `init`.  A
successful `create_table` leaves the freshly created empty table. -/
def run_full_pipeline (connect_ok create_ok : Bool)
    (fetchO : Nat → Option PyVal) (chunkFails : List CanonicalRecord → Bool)
    (init : Option (List CanonicalRecord)) (bmax target : Nat) : PipeResult :=
  if connect_ok then
    if create_ok then
      let r := fetch_strategic_sample fetchO bmax target
      let evs := PipeEvent.dropCreate ::
        (List.range r.fetchCalls).map PipeEvent.fetch
      match r.collected with
      | Option.none => ⟨false, some [], evs⟩
      | some items =>
          if items.isEmpty then ⟨false, some [], evs⟩
          else
            match items.mapM (fun it => normalize it) with
            | Option.none => ⟨false, some [], evs⟩
            | some prepared =>
                let res := insert_records_batch chunkFails prepared 500
                ⟨true, some res.committed.flatten, evs ++ [PipeEvent.load]⟩
    else ⟨false, init, []⟩
  else ⟨false, init, []⟩

/-- The fields mapping of the claim C7 counterexample: a non-null but
falsy value under the highest-priority alias, a truthy value under the
next one. -/
def c7fields : List (String × PyVal) :=
  [("code_site", PyVal.str ""), ("codeSite", PyVal.str "X")]

/-- The backoff discipline of one sleep event of the retry loop: rate-limit
sleeps last `10 * attempt` seconds, timeout sleeps `2 * attempt` seconds,
and the attempt counter stays within `1 .. max_retries`. -/
def sleepOk (max_retries : Nat) (e : SleepEv) : Prop :=
  (e.cause = SleepCause.rateLimited → e.secs = 10 * e.attempt) ∧
  (e.cause = SleepCause.timeoutWait → e.secs = 2 * e.attempt) ∧
  1 ≤ e.attempt ∧ e.attempt ≤ max_retries

/-- A Python `or` chain over three values picks the first truthy one, the
last value when none is truthy. -/
lemma pyOr_chain (a b c : PyVal) :
    pyOr (pyOr a b) c = firstTruthyElseLast [a, b, c] := by
  by_cases ha : truthy a <;> by_cases hb : truthy b <;>
    simp [pyOr, firstTruthyElseLast, ha, hb]

/-- The commit/rollback loop keeps exactly the chunks whose insert does not
fail, in order. -/
lemma insertChunks_eq_filter (fails : List CanonicalRecord → Bool) :
    ∀ cs, insertChunks fails cs = cs.filter (fun c => !(fails c)) := by
  intro cs
  induction cs with
  | nil => rfl
  | cons c cs ih =>
      by_cases h : fails c <;> simp [insertChunks, List.filter_cons, h, ih]

/-- Claim C8: on the enveloped input
`{"record": {"fields": {"code_site": "A1", "geo_point_2d": [48.85, 2.35]}}}`
normalization yields `code_site = "A1"`, latitude 48.85, longitude 2.35 and
null for every other canonical field; on the flat input
`{"codeSite": "B2", "lat": 48.9, "lon": 2.4}` it yields `code_site = "B2"`,
latitude 48.9, longitude 2.4. -/
theorem spec_c8_concrete_normalization :
    normalize (PyVal.dict [("record", PyVal.dict [("fields", PyVal.dict
        [("code_site", PyVal.str "A1"),
         ("geo_point_2d", PyVal.list [PyVal.num 48.85, PyVal.num 2.35])])])]) =
      some ⟨PyVal.str "A1", PyVal.none, PyVal.none, PyVal.none, PyVal.none,
            PyVal.none, PyVal.none, PyVal.none,
            PyVal.num 48.85, PyVal.num 2.35⟩ ∧
    (normalize (PyVal.dict [("codeSite", PyVal.str "B2"),
        ("lat", PyVal.num 48.9), ("lon", PyVal.num 2.4)])).map
        (fun r => (r.code_site, r.latitude, r.longitude)) =
      some (PyVal.str "B2", PyVal.num 48.9, PyVal.num 2.4) :=
  ⟨rfl, rfl⟩

/-- Claim C6 is false as stated: the raw item `{"fields": 5}` is a
key-value mapping whose `"fields"` entry holds a non-mapping value; envelope
unwrapping selects `5` and `prepare_record_for_db` then raises an uncaught
`AttributeError` at `fields.get` (modelled as `Option.none`) instead of
producing a CanonicalRecord. -/
theorem spec_c6_counterexample :
    normalize (PyVal.dict [("fields", PyVal.num 5)]) = Option.none :=
  rfl

/-- Claim C6 amended: normalization is total on every raw item whose
envelope unwrapping yields a mapping — in particular on the empty mapping,
which yields the all-null record; it is only a present `"fields"` entry
(top level, or inside a dict `"record"` entry) holding a non-mapping value
that makes `prepare_record_for_db` raise. -/
theorem spec_c6_amended :
    (∀ item f, get_fields_from_item item = PyVal.dict f →
      ∃ r, normalize item = some r) ∧
    normalize (PyVal.dict []) = some nullRecord := by
  constructor
  · intro item f h
    unfold normalize
    rw [h]
    exact ⟨_, rfl⟩
  · rfl

/-- Witness for `spec_c6_amended` at the concrete item `{"cp": "75001"}`. -/
theorem spec_c6_witness :
    (normalize (PyVal.dict [("cp", PyVal.str "75001")])).isSome = true := by
  obtain ⟨r, hr⟩ := spec_c6_amended.1 (PyVal.dict [("cp", PyVal.str "75001")])
    [("cp", PyVal.str "75001")] rfl
  rw [hr]
  rfl

/-- Claim C7 is false as stated: on the fields mapping
`{"code_site": "", "codeSite": "X"}` the first alias holds the non-null
value `""`, yet the code resolves `code_site` to `"X"` — Python `or` skips
falsy values, not just null ones. -/
theorem spec_c7_counterexample :
    (prepare_record_for_db (PyVal.dict c7fields)).map (fun r => r.code_site) =
      some (PyVal.str "X") ∧
    specFirstNonNull [dictGet c7fields "code_site", dictGet c7fields "codeSite",
      dictGet c7fields "code"] = PyVal.str "" ∧
    PyVal.str "X" ≠ PyVal.str "" := by
  refine ⟨rfl, rfl, ?_⟩
  intro h
  injection h with h2
  exact absurd h2 (by decide)

/-- Claim C7 amended: for every fields mapping, `code_site` (resp.
`nom_site`) is the first of the values under `code_site`, `codeSite`,
`code` (resp. `nom_site`, `nomSite`, `nom`) that is truthy — non-null and
non-falsy — and the last alias's value when none is truthy. -/
theorem spec_c7_amended :
    ∀ f : List (String × PyVal), ∃ r,
      prepare_record_for_db (PyVal.dict f) = some r ∧
      r.code_site = firstTruthyElseLast
        [dictGet f "code_site", dictGet f "codeSite", dictGet f "code"] ∧
      r.nom_site = firstTruthyElseLast
        [dictGet f "nom_site", dictGet f "nomSite", dictGet f "nom"] := by
  intro f
  exact ⟨_, rfl, pyOr_chain _ _ _, pyOr_chain _ _ _⟩

/-- Claim C5 is false as stated: on three well-formed records and a
database accepting every chunk, three rows are committed yet
`insert_records_batch` returns Python `None`, not the count `3`. -/
theorem spec_c5_counterexample :
    (insert_records_batch (fun _ => false)
        [nullRecord, nullRecord, nullRecord] 500).ret = Option.none ∧
    (insert_records_batch (fun _ => false)
        [nullRecord, nullRecord, nullRecord] 500).committed.flatten.length = 3 ∧
    (insert_records_batch (fun _ => false)
        [nullRecord, nullRecord, nullRecord] 500).ret ≠
      some (insert_records_batch (fun _ => false)
        [nullRecord, nullRecord, nullRecord] 500).committed.flatten.length := by
  refine ⟨rfl, rfl, ?_⟩
  intro h
  exact Option.noConfusion h

/-- Claim C5 amended: `insert_records_batch` returns no count (Python
`None`); the rows committed are exactly the in-order concatenation of the
chunks whose insert succeeded, so the committed row count is the sum of the
successful chunks' sizes. -/
theorem spec_c5_amended :
    ∀ (fails : List CanonicalRecord → Bool)
      (prepared : List CanonicalRecord) (bs : Nat),
      (insert_records_batch fails prepared bs).ret = Option.none ∧
      (insert_records_batch fails prepared bs).committed =
        (chunksOf bs prepared).filter (fun c => !(fails c)) ∧
      (insert_records_batch fails prepared bs).committed.flatten.length =
        (((chunksOf bs prepared).filter (fun c => !(fails c))).map
          List.length).sum := by
  intro fails prepared bs
  refine ⟨rfl, insertChunks_eq_filter fails _, ?_⟩
  show (insertChunks fails (chunksOf bs prepared)).flatten.length = _
  rw [insertChunks_eq_filter fails]
  exact List.length_flatten _

/-- A failed probe (the `limit=1, offset=0` test fetch) makes
`fetch_strategic_sample` return the empty list after exactly one fetch. -/
lemma fetch_probe_fail (fetchO : Nat → Option PyVal) (bmax target : Nat)
    (h : fetchO 0 = Option.none) :
    fetch_strategic_sample fetchO bmax target = ⟨some [], 1⟩ := by
  unfold fetch_strategic_sample
  rw [h]

/-- Claim C1: whatever the page responses (failed fetches included), a run
of `fetch_strategic_sample` that returns does so with at most `target_size`
raw records, the final-batch overshoot being cut by `collected[:target_size]`. -/
theorem spec_c1_collect_bounded :
    ∀ (fetchO : Nat → Option PyVal) (bmax target : Nat), 0 < bmax →
      ∀ l, (fetch_strategic_sample fetchO bmax target).collected = some l →
        l.length ≤ target := by
  intro fetchO bmax target _hb l h
  unfold fetch_strategic_sample at h
  cases hf : fetchO 0 with
  | none =>
      rw [hf] at h
      simp only [Option.some.injEq] at h
      subst h
      simp
  | some v =>
      rw [hf] at h
      simp only [Option.map_eq_some'] at h
      obtain ⟨l0, -, rfl⟩ := h
      exact List.length_take_le target l0

/-- Witness for `spec_c1_collect_bounded`: a probe that fails after
retries yields the empty result, within the bound. -/
theorem spec_c1_witness :
    0 < 100 ∧
    (fetch_strategic_sample (fun _ => Option.none) 100 5).collected = some [] ∧
    ([] : List PyVal).length ≤ 5 :=
  ⟨by decide, rfl, spec_c1_collect_bounded (fun _ => Option.none) 100 5
    (by decide) [] rfl⟩

/-- Claim C2: a probe fetch that fails after retries makes the collector
return the empty sequence after that single fetch, while a failed batch
fetch later in the loop contributes zero records and the loop simply moves
on to the next batch with the accumulator unchanged. -/
theorem spec_c2_probe_fatal_batches_nonfatal :
    ∀ (fetchO : Nat → Option PyVal) (bmax target : Nat),
      (fetchO 0 = Option.none →
        fetch_strategic_sample fetchO bmax target = ⟨some [], 1⟩) ∧
      (∀ (offsets : List Nat) (rem oi calls : Nat) (collected : List PyVal),
        fetchO calls = Option.none → collected.length < target →
        collectLoop fetchO target offsets (rem + 1) oi calls collected =
          collectLoop fetchO target offsets rem ((oi + 1) % offsets.length)
            (calls + 1) collected) := by
  intro fetchO bmax target
  constructor
  · exact fetch_probe_fail fetchO bmax target
  · intro offsets rem oi calls collected h hlen
    simp only [collectLoop]
    rw [h]
    simp [extract_results_list, truthy, Nat.not_le.mpr hlen]

/-- Witness for `spec_c2_probe_fatal_batches_nonfatal` on an environment
whose every fetch fails. -/
theorem spec_c2_witness :
    fetch_strategic_sample (fun _ => Option.none) 100 10 = ⟨some [], 1⟩ ∧
    collectLoop (fun _ => Option.none) 10 [0] 1 0 1 [] =
      collectLoop (fun _ => Option.none) 10 [0] 0 ((0 + 1) % [0].length)
        (1 + 1) [] :=
  ⟨(spec_c2_probe_fatal_batches_nonfatal (fun _ => Option.none) 100 10).1 rfl,
   (spec_c2_probe_fatal_batches_nonfatal (fun _ => Option.none) 100 10).2
     [0] 0 0 1 [] rfl (by decide)⟩

/-- Every element produced by the range loop lies in `[cur, stop)`. -/
lemma pyRangeAux_mem (stop step : Nat) :
    ∀ fuel cur x, x ∈ pyRangeAux stop step fuel cur → cur ≤ x ∧ x < stop := by
  intro fuel
  induction fuel with
  | zero => intro cur x hx; simp [pyRangeAux] at hx
  | succ fuel ih =>
      intro cur x hx
      by_cases hc : cur < stop
      · simp only [pyRangeAux, if_pos hc, List.mem_cons] at hx
        rcases hx with rfl | hx
        · exact ⟨le_refl _, hc⟩
        · have := ih (cur + step) x hx
          omega
      · simp [pyRangeAux, hc] at hx

/-- The range loop produces a strictly increasing list for a positive step. -/
lemma pyRangeAux_sorted (stop step : Nat) (hstep : 0 < step) :
    ∀ fuel cur, List.Sorted (· < ·) (pyRangeAux stop step fuel cur) := by
  intro fuel
  induction fuel with
  | zero => intro cur; simp [pyRangeAux]
  | succ fuel ih =>
      intro cur
      by_cases hc : cur < stop
      · simp only [pyRangeAux, if_pos hc]
        rw [List.sorted_cons]
        refine ⟨?_, ih (cur + step)⟩
        intro b hb
        have := pyRangeAux_mem stop step fuel (cur + step) b hb
        omega
      · simp [pyRangeAux, hc]

/-- Length of the range: `⌈(stop - cur) / step⌉`, given enough fuel. -/
lemma pyRangeAux_length (stop step : Nat) (hstep : 0 < step) :
    ∀ fuel cur, stop - cur ≤ fuel →
      (pyRangeAux stop step fuel cur).length = (stop - cur + step - 1) / step := by
  intro fuel
  induction fuel with
  | zero =>
      intro cur h
      have h0 : stop - cur = 0 := by omega
      simp only [pyRangeAux, List.length_nil, h0]
      rw [Nat.div_eq_of_lt (by omega)]
  | succ fuel ih =>
      intro cur h
      by_cases hc : cur < stop
      · simp only [pyRangeAux, if_pos hc, List.length_cons]
        rw [ih (cur + step) (by omega)]
        have hd : stop - cur + step - 1 = (stop - cur - 1) + step := by omega
        rw [hd, Nat.add_div_right _ hstep]
        congr 1
        by_cases hds : stop - cur ≤ step
        · have h1 : stop - (cur + step) = 0 := by omega
          rw [h1, Nat.div_eq_of_lt (by omega), Nat.div_eq_of_lt (by omega)]
        · have h2 : stop - (cur + step) + step - 1 = stop - cur - 1 := by omega
          rw [h2]
      · simp only [pyRangeAux, if_neg hc, List.length_nil]
        have h0 : stop - cur = 0 := by omega
        rw [h0, Nat.div_eq_of_lt (by omega)]

/-- With fuel left and the cursor below the stop, the range starts at the
cursor. -/
lemma pyRangeAux_head (stop step : Nat) :
    ∀ fuel cur, cur < stop → 0 < fuel →
      ∃ t, pyRangeAux stop step fuel cur = cur :: t := by
  intro fuel cur hc hf
  obtain ⟨f, rfl⟩ : ∃ f, fuel = f + 1 := ⟨fuel - 1, by omega⟩
  refine ⟨pyRangeAux stop step f (cur + step), ?_⟩
  simp [pyRangeAux, hc]

/-- For a positive batch size the raw offset list is already non-empty, so
the `[0]` fallback never fires. -/
lemma offsetsFor_eq (bmax : Nat) (_hb : 0 < bmax) :
    offsetsFor bmax = pyRange 10000 bmax := by
  obtain ⟨t, ht⟩ := pyRangeAux_head 10000 bmax 10000 0 (by omega) (by omega)
  have ht' : pyRange 10000 bmax = 0 :: t := ht
  simp [offsetsFor, ht']

/-- Claim C3: for every positive batch size, the offset cycle for the fixed
ceiling 10000 is strictly increasing (hence its offsets are distinct), all
offsets are below the ceiling, its length is `⌈10000 / batch_size⌉`, and it
collapses to `[0]` once the batch size reaches the ceiling. -/
theorem spec_c3_offset_cycle :
    ∀ bmax : Nat, 0 < bmax →
      List.Sorted (· < ·) (offsetsFor bmax) ∧
      (offsetsFor bmax).Nodup ∧
      (∀ x ∈ offsetsFor bmax, x < 10000) ∧
      (offsetsFor bmax).length = (10000 + bmax - 1) / bmax ∧
      (10000 ≤ bmax → offsetsFor bmax = [0]) := by
  intro bmax hb
  rw [offsetsFor_eq bmax hb]
  have hsorted : List.Sorted (· < ·) (pyRange 10000 bmax) :=
    pyRangeAux_sorted 10000 bmax hb 10000 0
  have hlen : (pyRange 10000 bmax).length = (10000 + bmax - 1) / bmax := by
    have := pyRangeAux_length 10000 bmax hb 10000 0 (by omega)
    simpa using this
  refine ⟨hsorted, hsorted.nodup, ?_, hlen, ?_⟩
  · intro x hx
    exact (pyRangeAux_mem 10000 bmax 10000 0 x hx).2
  · intro h10
    obtain ⟨t, ht⟩ := pyRangeAux_head 10000 bmax 10000 0 (by omega) (by omega)
    have ht' : pyRange 10000 bmax = 0 :: t := ht
    have h1 : (pyRange 10000 bmax).length = 1 := by
      rw [hlen]
      exact Nat.div_eq_of_lt_le (by omega) (by omega)
    rw [ht'] at h1 ⊢
    simp only [List.length_cons] at h1
    have ht0 : t = [] := List.length_eq_zero.mp (by omega)
    rw [ht0]

/-- Witness for `spec_c3_offset_cycle` at batch size 6000. -/
theorem spec_c3_witness :
    0 < 6000 ∧ (offsetsFor 6000).length = (10000 + 6000 - 1) / 6000 :=
  ⟨by decide, (spec_c3_offset_cycle 6000 (by decide)).2.2.2.1⟩

/-- The chunks concatenate back to the input, given enough fuel. -/
lemma chunksOfAux_flatten (bs : Nat) (hb : 0 < bs) :
    ∀ fuel l, l.length ≤ fuel → (chunksOfAux bs fuel l).flatten = l := by
  intro fuel
  induction fuel with
  | zero =>
      intro l h
      rw [List.eq_nil_of_length_eq_zero (Nat.le_zero.mp h)]
      rfl
  | succ fuel ih =>
      intro l h
      cases l with
      | nil => rfl
      | cons a l =>
          simp only [chunksOfAux, List.flatten_cons]
          rw [ih ((a :: l).drop bs) (by simp only [List.length_drop]; omega)]
          exact List.take_append_drop bs (a :: l)

/-- Every chunk is non-empty and no longer than the chunk size. -/
lemma chunksOfAux_mem_length (bs : Nat) (hb : 0 < bs) :
    ∀ fuel l c, c ∈ chunksOfAux bs fuel l → 0 < c.length ∧ c.length ≤ bs := by
  intro fuel
  induction fuel with
  | zero => intro l c hc; simp [chunksOfAux] at hc
  | succ fuel ih =>
      intro l c hc
      cases l with
      | nil => simp [chunksOfAux] at hc
      | cons a l =>
          simp only [chunksOfAux, List.mem_cons] at hc
          rcases hc with rfl | hc
          · simp only [List.length_take, List.length_cons]
            omega
          · exact ih ((a :: l).drop bs) c hc

/-- Every chunk but the last has length exactly the chunk size. -/
lemma chunksOfAux_getD_length (bs : Nat) (_hb : 0 < bs) :
    ∀ fuel l i, i + 1 < (chunksOfAux bs fuel l).length →
      ((chunksOfAux bs fuel l).getD i []).length = bs := by
  intro fuel
  induction fuel with
  | zero => intro l i h; simp [chunksOfAux] at h
  | succ fuel ih =>
      intro l i h
      cases l with
      | nil => simp [chunksOfAux] at h
      | cons a l =>
          simp only [chunksOfAux, List.length_cons] at h
          cases i with
          | zero =>
              have hrest : chunksOfAux bs fuel ((a :: l).drop bs) ≠ [] := by
                intro he
                rw [he] at h
                simp at h
              have hlen : bs < (a :: l).length := by
                by_contra hle
                push_neg at hle
                have hdrop : (a :: l).drop bs = [] := by
                  rw [List.drop_eq_nil_iff]
                  omega
                rw [hdrop] at hrest
                apply hrest
                cases fuel <;> rfl
              simp only [chunksOfAux, List.getD_cons_zero, List.length_take]
              omega
          | succ i =>
              simp only [chunksOfAux, List.getD_cons_succ]
              exact ih ((a :: l).drop bs) i (by omega)

/-- Claim C4: the loader splits its input into contiguous chunks of exactly
`batch_size` records except a possibly smaller non-empty final chunk, and a
run in which every malformed record sits in chunk `k` still commits every
chunk other than `k` (each chunk is its own transaction; a failed one is
rolled back alone and the loop proceeds). -/
theorem spec_c4_chunk_isolation :
    ∀ (bad : CanonicalRecord → Bool) (prepared : List CanonicalRecord)
      (bs k : Nat), 0 < bs →
      (chunksOf bs prepared).flatten = prepared ∧
      (∀ i, i + 1 < (chunksOf bs prepared).length →
        ((chunksOf bs prepared).getD i []).length = bs) ∧
      (∀ c ∈ chunksOf bs prepared, 0 < c.length ∧ c.length ≤ bs) ∧
      ((∀ i, i < (chunksOf bs prepared).length → i ≠ k →
          ∀ r ∈ (chunksOf bs prepared).getD i [], bad r = false) →
        ∀ i, i < (chunksOf bs prepared).length → i ≠ k →
          (chunksOf bs prepared).getD i [] ∈
            (insert_records_batch (fun c => c.any bad) prepared bs).committed) := by
  intro bad prepared bs k hb
  have hch : chunksOf bs prepared = chunksOfAux bs prepared.length prepared := by
    unfold chunksOf
    rw [if_neg (by omega)]
  refine ⟨?_, ?_, ?_, ?_⟩
  · rw [hch]
    exact chunksOfAux_flatten bs hb prepared.length prepared le_rfl
  · intro i h
    rw [hch] at h ⊢
    exact chunksOfAux_getD_length bs hb prepared.length prepared i h
  · intro c hc
    rw [hch] at hc
    exact chunksOfAux_mem_length bs hb prepared.length prepared c hc
  · intro hgood i hi hik
    show (chunksOf bs prepared).getD i [] ∈
      insertChunks (fun c => c.any bad) (chunksOf bs prepared)
    rw [insertChunks_eq_filter, List.mem_filter]
    have hieq : (chunksOf bs prepared).getD i [] = (chunksOf bs prepared)[i] :=
      List.getD_eq_getElem (chunksOf bs prepared) [] hi
    constructor
    · rw [hieq]
      exact List.getElem_mem hi
    · have hnone := hgood i hi hik
      simp only [Bool.not_eq_true', List.any_eq_false]
      intro r hr
      simp [hnone r hr]

/-- Witness for `spec_c4_chunk_isolation`: records chunked pairwise, the
second (well-formed) chunk survives a database where no chunk fails. -/
theorem spec_c4_witness :
    0 < 2 ∧
    [nullRecord] ∈ (insert_records_batch
      (fun c => c.any (fun _ => false))
      [nullRecord, nullRecord, nullRecord] 2).committed := by
  refine ⟨by decide, ?_⟩
  have h := (spec_c4_chunk_isolation (fun _ => false)
    [nullRecord, nullRecord, nullRecord] 2 0 (by decide)).2.2.2
    (by intro i hi hik r hr; rfl) 1 (by decide) (by decide)
  exact h

/-- Appending the sleep of the current attempt preserves the retry-loop
invariants: every recorded sleep obeys the backoff discipline and the
recorded attempt numbers are the consecutive run `1, 2, …`. -/
lemma sleeps_snoc (mr attempt : Nat) (sleeps : List SleepEv) (e : SleepEv)
    (h2 : attempt = sleeps.length + 1)
    (h3 : ∀ x ∈ sleeps, sleepOk mr x)
    (h4 : sleeps.map SleepEv.attempt = List.range' 1 sleeps.length)
    (he : sleepOk mr e) (hea : e.attempt = attempt) :
    (attempt + 1 = (sleeps ++ [e]).length + 1) ∧
    (∀ x ∈ sleeps ++ [e], sleepOk mr x) ∧
    (sleeps ++ [e]).map SleepEv.attempt =
      List.range' 1 (sleeps ++ [e]).length := by
  refine ⟨by simp; omega, ?_, ?_⟩
  · intro x hx
    rcases List.mem_append.mp hx with hx | hx
    · exact h3 x hx
    · rw [List.mem_singleton.mp hx]
      exact he
  · rw [List.map_append, h4, List.length_append]
    simp only [List.map_cons, List.map_nil, List.length_cons, List.length_nil]
    rw [List.range'_1_concat]
    simp [hea, h2, Nat.add_comm]

/-- Introduction rule for `sleepOk`. -/
lemma sleepOk_mk (mr : Nat) (c : SleepCause) (attempt w : Nat)
    (h1 : 1 ≤ attempt) (h2 : attempt ≤ mr)
    (hr : c = SleepCause.rateLimited → w = 10 * attempt)
    (ht : c = SleepCause.timeoutWait → w = 2 * attempt) :
    sleepOk mr ⟨c, attempt, w⟩ :=
  ⟨hr, ht, h1, h2⟩

/-- Invariant of the retry loop of `fetch_data_batch`: starting from a
consistent attempt counter and sleep trace, the final trace satisfies the
backoff discipline and its attempt numbers are `1, 2, …` in order. -/
lemma fetchLoop_inv (env : Nat → AttemptOutcome) (mr : Nat) :
    ∀ fuel attempt sleeps,
      attempt + fuel = mr + 1 →
      attempt = sleeps.length + 1 →
      (∀ e ∈ sleeps, sleepOk mr e) →
      sleeps.map SleepEv.attempt = List.range' 1 sleeps.length →
      (∀ e ∈ (fetchLoop env mr fuel attempt sleeps).sleeps, sleepOk mr e) ∧
      (fetchLoop env mr fuel attempt sleeps).sleeps.map SleepEv.attempt =
        List.range' 1 (fetchLoop env mr fuel attempt sleeps).sleeps.length := by
  intro fuel
  induction fuel with
  | zero =>
      intro attempt sleeps h1 h2 h3 h4
      exact ⟨h3, h4⟩
  | succ fuel ih =>
      intro attempt sleeps h1 h2 h3 h4
      have hbound : 1 ≤ attempt ∧ attempt ≤ mr := by omega
      cases henv : env attempt with
      | status code body =>
          simp only [fetchLoop, henv]
          by_cases h429 : code = 429
          · rw [if_pos h429]
            obtain ⟨k1, k2, k3⟩ := sleeps_snoc mr attempt sleeps
              ⟨SleepCause.rateLimited, attempt, 10 * attempt⟩ h2 h3 h4
              (sleepOk_mk mr SleepCause.rateLimited attempt (10 * attempt)
                hbound.1 hbound.2 (fun _ => rfl)
                (fun hc => absurd hc (by decide))) rfl
            exact ih (attempt + 1) _ (by omega) k1 k2 k3
          · rw [if_neg h429]
            by_cases herr : 400 ≤ code ∧ code < 600
            · rw [if_pos herr]
              by_cases hrem : attempt < mr
              · rw [if_pos hrem]
                obtain ⟨k1, k2, k3⟩ := sleeps_snoc mr attempt sleeps
                  ⟨SleepCause.reqErrorWait, attempt, 2 * attempt⟩ h2 h3 h4
                  (sleepOk_mk mr SleepCause.reqErrorWait attempt (2 * attempt)
                    hbound.1 hbound.2 (fun hc => absurd hc (by decide))
                    (fun hc => absurd hc (by decide))) rfl
                exact ih (attempt + 1) _ (by omega) k1 k2 k3
              · rw [if_neg hrem]
                exact ⟨h3, h4⟩
            · rw [if_neg herr]
              exact ⟨h3, h4⟩
      | timeout =>
          simp only [fetchLoop, henv]
          obtain ⟨k1, k2, k3⟩ := sleeps_snoc mr attempt sleeps
            ⟨SleepCause.timeoutWait, attempt, 2 * attempt⟩ h2 h3 h4
            (sleepOk_mk mr SleepCause.timeoutWait attempt (2 * attempt)
              hbound.1 hbound.2 (fun hc => absurd hc (by decide))
              (fun _ => rfl)) rfl
          exact ih (attempt + 1) _ (by omega) k1 k2 k3
      | reqError =>
          simp only [fetchLoop, henv]
          by_cases hrem : attempt < mr
          · rw [if_pos hrem]
            obtain ⟨k1, k2, k3⟩ := sleeps_snoc mr attempt sleeps
              ⟨SleepCause.reqErrorWait, attempt, 2 * attempt⟩ h2 h3 h4
              (sleepOk_mk mr SleepCause.reqErrorWait attempt (2 * attempt)
                hbound.1 hbound.2 (fun hc => absurd hc (by decide))
                (fun hc => absurd hc (by decide))) rfl
            exact ih (attempt + 1) _ (by omega) k1 k2 k3
          · rw [if_neg hrem]
            exact ⟨h3, h4⟩

/-- Claim C9: in `fetch_data_batch` every backoff sleep after a rate-limited
response lasts exactly `10 * attempt` seconds, every one after a timeout
exactly `2 * attempt` seconds — deterministic functions of the attempt
number alone — and a single attempt counter, running `1, 2, …` and bounded
by `max_retries`, governs all retry causes. -/
theorem spec_c9_backoff_discipline :
    ∀ (env : Nat → AttemptOutcome) (max_retries : Nat),
      (∀ e ∈ (fetch_data_batch env max_retries).sleeps,
        (e.cause = SleepCause.rateLimited → e.secs = 10 * e.attempt) ∧
        (e.cause = SleepCause.timeoutWait → e.secs = 2 * e.attempt) ∧
        1 ≤ e.attempt ∧ e.attempt ≤ max_retries) ∧
      (fetch_data_batch env max_retries).sleeps.map SleepEv.attempt =
        List.range' 1 (fetch_data_batch env max_retries).sleeps.length := by
  intro env mr
  have h := fetchLoop_inv env mr mr 1 [] (by omega) (by simp)
    (by intro e he; simp at he) (by simp)
  exact ⟨fun e he => h.1 e he, h.2⟩

/-- Witness for `spec_c9_backoff_discipline`: an environment that times out
on every attempt, two retries; the second sleep lasts `2 * 2` seconds. -/
theorem spec_c9_witness :
    SleepEv.mk SleepCause.timeoutWait 2 4 ∈
      (fetch_data_batch (fun _ => AttemptOutcome.timeout) 2).sleeps ∧
    (SleepEv.mk SleepCause.timeoutWait 2 4).secs =
      2 * (SleepEv.mk SleepCause.timeoutWait 2 4).attempt :=
  ⟨by decide,
   ((spec_c9_backoff_discipline (fun _ => AttemptOutcome.timeout) 2).1
     (SleepEv.mk SleepCause.timeoutWait 2 4) (by decide)).2.1 rfl⟩

/-- Claim C10: once connecting and schema creation succeed, the first
observable event of a full pipeline run is the destructive drop-and-recreate
of `wifi_sessions`, before any collection fetch; and when the probe fetch
then fails (collection returns empty, the pipeline returns failure) the
run ends with the freshly created empty table, whatever the table held
before — the previous contents are not restored. -/
theorem spec_c10_drop_before_fetch :
    ∀ (co cr : Bool) (fetchO : Nat → Option PyVal)
      (chunkFails : List CanonicalRecord → Bool)
      (init : Option (List CanonicalRecord)) (bmax target : Nat),
      co = true → cr = true →
      ((run_full_pipeline co cr fetchO chunkFails init bmax target).events.head? =
        some PipeEvent.dropCreate) ∧
      (fetchO 0 = Option.none →
        run_full_pipeline co cr fetchO chunkFails init bmax target =
          ⟨false, some [], [PipeEvent.dropCreate, PipeEvent.fetch 0]⟩) := by
  intro co cr fetchO chunkFails init bmax target hco hcr
  subst hco
  subst hcr
  constructor
  · unfold run_full_pipeline
    simp only [if_true]
    rcases hcol : (fetch_strategic_sample fetchO bmax target).collected with _ | items
    · simp [hcol]
    · simp only [hcol]
      by_cases hemp : items.isEmpty
      · simp [hemp]
      · simp only [hemp]
        rcases hm : items.mapM (fun it => normalize it) with _ | prepared
        · simp [hm]
        · simp [hm]
  · intro hprobe
    have hps := fetch_probe_fail fetchO bmax target hprobe
    unfold run_full_pipeline
    rw [hps]
    simp [show List.range 1 = [0] from rfl]

/-- Witness for `spec_c10_drop_before_fetch`: a failing probe over a
previously non-empty table leaves the recreated empty table. -/
theorem spec_c10_witness :
    run_full_pipeline true true (fun _ => Option.none) (fun _ => false)
        (some [nullRecord]) 100 10 =
      ⟨false, some [], [PipeEvent.dropCreate, PipeEvent.fetch 0]⟩ :=
  (spec_c10_drop_before_fetch true true (fun _ => Option.none)
    (fun _ => false) (some [nullRecord]) 100 10 rfl rfl).2 rfl

end ParisWifi
